import Mathlib

/-!
Shallow embedding of the core of the `createrington` Discord-bot repository:

* the persistent join ledger (`GuildMemberJoinQueries.recordJoin` /
  `getJoinNumber` over the Postgres table `guild_member_joins`,
  `src/db/tables/001_guild_member_joins.sql`);
* the dynamic event-handler loader/dispatcher
  (`src/server/src/discord/bots/main/loaders/event-loader.ts`);
* the welcome handler
  (`src/server/src/discord/bots/main/events/guild-member-add/welcome.ts`).

Database statements are modelled as atomic operations on an explicit ledger
state; Postgres `SERIAL` semantics are modelled faithfully, in particular the
documented fact that the sequence value consumed by an
`INSERT ... ON CONFLICT DO NOTHING` is not given back when the insert is
suppressed (sequences are non-transactional, so suppressed or rolled-back
inserts leave gaps).
-/

namespace Createrington

/-! ### Join ledger data model

One row of `guild_member_joins` (`join_number SERIAL PRIMARY KEY`,
`user_id VARCHAR UNIQUE NOT NULL`, `username VARCHAR NOT NULL`; the
`joined_at` timestamp is wall-clock input irrelevant to every claim and is
omitted from the row model). -/
structure JoinRow where
  join_number : Nat
  user_id : String
  username : String
  deriving Repr, DecidableEq

/-- The ledger state: the value of the `SERIAL` sequence backing
`join_number` (`seq` = last value handed out, `0` initially) and the
committed rows in insertion order. -/
structure LedgerState where
  seq : Nat
  rows : List JoinRow
  deriving Repr, DecidableEq

/-- A freshly created (empty) `guild_member_joins` table. -/
def emptyLedger : LedgerState := ⟨0, []⟩

/-- The statement
`INSERT INTO guild_member_joins (user_id, username, joined_at) VALUES ($1,$2,CURRENT_TIMESTAMP) ON CONFLICT (user_id) DO NOTHING RETURNING join_number`.
`nextval` is evaluated for the proposed tuple before conflict detection, so
the sequence advances even when the insert is suppressed; on conflict no row
is stored and no `join_number` is returned (`result.rows` is empty). -/
def insertOnConflictDoNothing (st : LedgerState) (userId username : String) :
    LedgerState × Option Nat :=
  let n := st.seq + 1
  if st.rows.any (fun r => r.user_id == userId) then
    ({ st with seq := n }, none)
  else
    (⟨n, st.rows ++ [⟨n, userId, username⟩]⟩, some n)

/-- The point lookup `this.find({ userId })` (a `SELECT ... WHERE user_id = $1`
returning the first matching row or nothing). -/
def findByUserId (st : LedgerState) (userId : String) : Option JoinRow :=
  st.rows.find? (fun r => r.user_id == userId)

/-- Outcome of one database statement as seen by the driver: a result, or a
lower-level storage/connectivity error thrown by `pg`. -/
inductive DbOutcome (α : Type) where
  | ok (a : α)
  | fail (e : String)
  deriving Repr, DecidableEq

/-- Errors `recordJoin` can propagate to its caller. -/
inductive RecordJoinError where
  /-- `new Error("Failed to record join - no result returned")`: the insert was
  suppressed by the uniqueness constraint yet the follow-up lookup found no
  row. -/
  | ledgerInconsistency
  /-- A rethrown lower-level storage error. -/
  | storage (e : String)
  deriving Repr, DecidableEq

/-- The control flow of `GuildMemberJoinQueries.recordJoin`, parameterised by
the outcomes of its two statements (the conflict-suppressing insert and the
fallback lookup, each returning an optional `join_number`).  Returns the
result together with how many insert statements and how many lookup
statements were executed.  Mirrors the source: a thrown error is logged and
rethrown (`catch (error) { logger.error(...); throw error; }`), an empty
insert result triggers exactly one lookup, a missing lookup row throws the
inconsistency error, and there is no retry loop. -/
def recordJoinFlow (ins : DbOutcome (Option Nat)) (lkp : DbOutcome (Option Nat)) :
    Except RecordJoinError Nat × Nat × Nat :=
  match ins with
  | .fail e => (.error (.storage e), 1, 0)
  | .ok (some n) => (.ok n, 1, 0)
  | .ok none =>
    match lkp with
    | .fail e => (.error (.storage e), 1, 1)
    | .ok none => (.error .ledgerInconsistency, 1, 1)
    | .ok (some k) => (.ok k, 1, 1)

/-- `GuildMemberJoinQueries.recordJoin(userId, username)` run against a live
ledger state in which each statement commits atomically and succeeds at the
storage level (the code runs in auto-commit, one statement per query). -/
def recordJoin (st : LedgerState) (userId username : String) :
    LedgerState × Except RecordJoinError Nat :=
  let p := insertOnConflictDoNothing st userId username
  (p.1, (recordJoinFlow (.ok p.2) (.ok ((findByUserId p.1 userId).map (·.join_number)))).1)

/-- `GuildMemberJoinQueries.getJoinNumber(userId)`: point lookup, `null` when
the user never joined. -/
def getJoinNumber (st : LedgerState) (userId : String) : Option Nat :=
  (findByUserId st userId).map (·.join_number)

/-- `getJoinNumber` as a state transformer: it issues a single `SELECT` and
performs no write, so the resulting state is the input state. -/
def getJoinNumberSt (st : LedgerState) (userId : String) :
    LedgerState × Option Nat :=
  (st, getJoinNumber st userId)

/-- A sequence of sequential `recordJoin` calls (single writer), returning the
final state and the per-call results. -/
def runJoins (st : LedgerState) : List (String × String) →
    LedgerState × List (Except RecordJoinError Nat)
  | [] => (st, [])
  | (u, n) :: rest =>
    let p := recordJoin st u n
    let q := runJoins p.1 rest
    (q.1, p.2 :: q.2)

/-- One atomic statement against the table, as serialised by the database
under concurrent writers: a conflict-suppressing insert or a point lookup.
Any concurrent execution of `recordJoin` calls reaches the table as some
interleaving (list) of these. -/
inductive DbOp where
  | insert (userId username : String)
  | select (userId : String)
  deriving Repr, DecidableEq

/-- Effect of one atomic statement on the ledger state. -/
def applyOp (st : LedgerState) : DbOp → LedgerState
  | .insert u n => (insertOnConflictDoNothing st u n).1
  | .select _ => st

/-- Effect of a serialised interleaving of atomic statements. -/
def applyOps (st : LedgerState) (ops : List DbOp) : LedgerState :=
  ops.foldl applyOp st

/-- Well-formedness enforced by the schema: `user_id` is `UNIQUE`,
`join_number` values are pairwise distinct (`PRIMARY KEY`), and every stored
`join_number` was allocated from the sequence (is `≤ seq`). -/
def WF (st : LedgerState) : Prop :=
  (st.rows.map (·.user_id)).Nodup ∧
  (st.rows.map (·.join_number)).Nodup ∧
  ∀ r ∈ st.rows, r.join_number ≤ st.seq

instance (st : LedgerState) : Decidable (WF st) := by
  unfold WF; exact inferInstance

/-! ### Event loader and dispatcher (`event-loader.ts`)

A handler's `execute(client, ...args)` either completes or fails (throws
synchronously or returns a rejecting promise); the notification payload is
abstracted as a `Nat`.  The upstream client is modelled with Node
`EventEmitter` semantics as used by discord.js: `on` appends a recurring
listener, `once` a listener that is removed before its first matching
invocation; listeners run in registration order and an error escaping a
listener propagates out of `emit`, skipping the rest. -/

/-- Result of running a handler's `execute`. -/
inductive ExecOutcome where
  | ok
  | err (msg : String)
  deriving Repr

/-- A JavaScript value in a module-export slot, with the granularity
`isEventModule`'s `typeof` checks observe. -/
inductive JsVal where
  | vstr (s : String)
  | vfun (f : Nat → ExecOutcome)
  | vother

/-- A loaded module namespace as `isEventModule` inspects it: each relevant
export slot either absent (`none`) or holding some value.  `once` and
`prodOnly` are declared `boolean | undefined` in the `EventModule`
interface. -/
structure RawModule where
  eventName : Option JsVal
  once : Option Bool
  prodOnly : Option Bool
  execute : Option JsVal

/-- The type guard `isEventModule`: the object has an `eventName` slot of
string type and an `execute` slot of function type.  (No emptiness check is
performed on the string.) -/
def isEventModule (m : RawModule) : Bool :=
  (match m.eventName with | some (.vstr _) => true | _ => false) &&
  (match m.execute with | some (.vfun _) => true | _ => false)

/-- A dynamically imported artifact: the module namespace (`named`) and, when
the module has a `default` export, that export. -/
structure LoadedArtifact where
  defaultSlot : Option RawModule
  named : RawModule

/-- The selection
`"default" in m && isEventModule(m.default) ? m.default : isEventModule(m) ? m : undefined`. -/
def selectEvent (a : LoadedArtifact) : Option RawModule :=
  match a.defaultSlot with
  | some d =>
    if isEventModule d then some d
    else if isEventModule a.named then some a.named else none
  | none => if isEventModule a.named then some a.named else none

/-- The `eventName` read off a validated module (junk `""` when invalid;
never used in that case). -/
def eventNameOf (m : RawModule) : String :=
  match m.eventName with | some (.vstr s) => s | _ => ""

/-- The `execute` function read off a validated module. -/
def executeOf (m : RawModule) : Nat → ExecOutcome :=
  match m.execute with | some (.vfun f) => f | _ => fun _ => .ok

/-- Truthiness of `event.once` (`undefined` is falsy). -/
def onceOf (m : RawModule) : Bool := m.once.getD false

/-- Truthiness of `event.prodOnly` (`undefined` is falsy). -/
def prodOnlyOf (m : RawModule) : Bool := m.prodOnly.getD false

/-- Levels of the structured logging collaborator. -/
inductive LogLevel where
  | info
  | warn
  | error
  | debug
  deriving Repr, DecidableEq

/-- One structured log line. -/
structure LogEntry where
  level : LogLevel
  msg : String
  deriving Repr, DecidableEq

/-- What one registered callback invocation produces: an error escaping to
the emitter (`threw`), and log lines. -/
structure CallbackResult where
  threw : Option String
  logs : List LogEntry
  deriving Repr, DecidableEq

/-- The wrapper the loader registers:
`async (...args) => { try { await event.execute(client, ...args) } catch (error) { logger.error(...) } }`.
Every failure is converted into an error-level log line carrying the event
name and (via the message shape) whether the binding was a once-binding;
nothing escapes. -/
def wrapExecute (eventName : String) (once : Bool) (execute : Nat → ExecOutcome)
    (arg : Nat) : CallbackResult :=
  match execute arg with
  | .ok => ⟨none, []⟩
  | .err e =>
    ⟨none, [⟨.error,
      "Error in " ++ eventName ++ (if once then " (once) event: " else " event: ") ++ e⟩]⟩

/-- One listener registered on the upstream client.  `lid` is the path of the
source artifact, identifying the binding in traces. -/
structure Listener where
  lid : String
  eventName : String
  once : Bool
  action : Nat → CallbackResult

/-- Result of one `emit`: the surviving listener list, the `lid`s invoked in
order, the accumulated logs, and an error that escaped to the upstream
client (aborting the remainder of the delivery), if any. -/
structure EmitResult where
  client : List Listener
  invoked : List String
  logs : List LogEntry
  escaped : Option String

/-- Deliver one notification `(ev, arg)` to a listener list:
registration-order traversal; a once-listener is removed before running; an
escaping error aborts delivery to the rest (Node `emit` semantics). -/
def emitOne : List Listener → String → Nat → EmitResult
  | [], _, _ => ⟨[], [], [], none⟩
  | l :: rest, ev, arg =>
    if l.eventName == ev then
      let r := l.action arg
      match r.threw with
      | some e => ⟨(if l.once then rest else l :: rest), [l.lid], r.logs, some e⟩
      | none =>
        let t := emitOne rest ev arg
        ⟨(if l.once then t.client else l :: t.client), l.lid :: t.invoked,
          r.logs ++ t.logs, t.escaped⟩
    else
      let t := emitOne rest ev arg
      ⟨l :: t.client, t.invoked, t.logs, t.escaped⟩

/-- Result of delivering a sequence of notifications. -/
structure SeqResult where
  client : List Listener
  trace : List String
  logs : List LogEntry
  escaped : Option String

/-- Deliver a sequence of notifications; an error that escapes a delivery
aborts the dispatcher (no further notification is delivered). -/
def emitSeq (c : List Listener) : List (String × Nat) → SeqResult
  | [] => ⟨c, [], [], none⟩
  | (ev, a) :: rest =>
    let r := emitOne c ev a
    match r.escaped with
    | some e => ⟨r.client, r.invoked, r.logs, some e⟩
    | none =>
      let t := emitSeq r.client rest
      ⟨t.client, r.invoked ++ t.trace, r.logs ++ t.logs, t.escaped⟩

/-- `path.basename`: the final component of a slash-separated path. -/
def basename (s : String) : String := (s.splitOn "/").getLastD s

/-- Outcome of `await import(pathToFileURL(filePath).href)`. -/
inductive ImportOutcome where
  | failure (e : String)
  | loaded (art : LoadedArtifact)

/-- Accumulator of the loader loop: the client's listener list, the
`loadedCount`, and the log lines emitted so far. -/
structure LoadState where
  client : List Listener
  count : Nat
  logs : List LogEntry

/-- One iteration of the `for (const filePath of eventFiles)` loop of
`loadEventHandlers`: import failure is logged and skipped; an invalid shape
is logged and skipped; in dev mode a `prodOnly` module is logged and
skipped; otherwise the wrapped handler is registered via `client.once` or
`client.on` and `loadedCount` is incremented. -/
def loadStep (isDev : Bool) (st : LoadState) (file : String × ImportOutcome) :
    LoadState :=
  match file.2 with
  | .failure e =>
    { st with logs := st.logs ++ [⟨.error, "Failed to load event " ++ file.1 ++ ": " ++ e⟩] }
  | .loaded art =>
    match selectEvent art with
    | none =>
      { st with logs := st.logs ++
          [⟨.warn, "Skipped " ++ file.1 ++ ": not a valid EventModule (missing eventName or execute)"⟩] }
    | some m =>
      if isDev && prodOnlyOf m then
        { st with logs := st.logs ++
            [⟨.warn, "Skipped loading production-only event: " ++ basename file.1⟩] }
      else
        { client := st.client ++
            [⟨file.1, eventNameOf m, onceOf m,
              wrapExecute (eventNameOf m) (onceOf m) (executeOf m)⟩],
          count := st.count + 1,
          logs := st.logs ++
            [⟨.debug, "Registered " ++ (if onceOf m then "once" else "on") ++ " event: "
              ++ eventNameOf m ++ " (" ++ basename file.1 ++ ")"⟩] }

/-- The loop body of `loadEventHandlers` over the discovered files (each with
its import outcome), starting from an empty registration state. -/
def loadEventHandlers (isDev : Bool) (files : List (String × ImportOutcome)) :
    LoadState :=
  files.foldl (loadStep isDev) ⟨[], 0, []⟩

/-- `loadEventHandlers` including the events-directory existence gate and the
final info log; its sole return value in the source is the count. -/
def loadEventHandlersTop (isDev : Bool) (dirExists : Bool)
    (files : List (String × ImportOutcome)) : LoadState :=
  if dirExists then
    let st := loadEventHandlers isDev files
    { st with logs := st.logs ++ [⟨.info, "Loaded " ++ toString st.count ++ " Discord event(s)"⟩] }
  else
    ⟨[], 0, [⟨.warn, "Events directory not found"⟩]⟩

/-! ### Welcome handler (`welcome.ts`)

The per-notification body of the `client.on("guildMemberAdd", ...)` callback
registered by `registerWelcomeHandler`, modelled by its observable effects.
`channelOk` is the outcome of the channel fetch + text-channel check. -/

/-- Facts about the joining member the handler reads. -/
structure MemberInfo where
  userId : String
  username : String
  guildMemberCount : Nat
  deriving Repr, DecidableEq

/-- An observable side effect of the welcome handler. -/
inductive WelcomeEffect where
  /-- `client.channels.fetch(welcomeConfig.channelId)` -/
  | fetchChannel
  /-- sending the welcome card; carries the number rendered as `Member #n` -/
  | sendCard (shownNumber : Nat)
  /-- sending the optional embed; carries the number shown as `member **#n**` -/
  | sendEmbedMsg (shownNumber : Nat)
  /-- a call to `GuildMemberJoinQueries.recordJoin(userId, ...)` -/
  | ledgerRecordJoin (userId : String)
  /-- a call to `GuildMemberJoinQueries.getJoinNumber(userId)` -/
  | ledgerGetJoinNumber (userId : String)
  deriving Repr, DecidableEq

/-- The `guildMemberAdd` callback of `registerWelcomeHandler`: fetch the
configured channel; if absent or not text-based, warn and stop; otherwise
read `member.guild.memberCount`, send the welcome card showing that count,
and optionally send the embed showing the same count. -/
def welcomeHandler (sendEmbed : Bool) (channelOk : Bool) (m : MemberInfo) :
    List WelcomeEffect :=
  [.fetchChannel] ++
    (if channelOk then
      [.sendCard m.guildMemberCount] ++
        (if sendEmbed then [.sendEmbedMsg m.guildMemberCount] else [])
    else [])

end Createrington
namespace Createrington

theorem findByUserId_seq (st : LedgerState) (u : String) (k : Nat) :
    findByUserId { st with seq := k } u = findByUserId st u := rfl

theorem recordJoin_not_mem (st : LedgerState) (u n : String)
    (h : st.rows.any (fun r => r.user_id == u) = false) :
    recordJoin st u n =
      (⟨st.seq + 1, st.rows ++ [⟨st.seq + 1, u, n⟩]⟩, .ok (st.seq + 1)) := by
  simp [recordJoin, insertOnConflictDoNothing, recordJoinFlow, h]

theorem recordJoin_mem_found (st : LedgerState) (u n : String) (r : JoinRow)
    (h : st.rows.any (fun r => r.user_id == u) = true)
    (hf : findByUserId st u = some r) :
    recordJoin st u n = ({ st with seq := st.seq + 1 }, .ok r.join_number) := by
  simp [recordJoin, insertOnConflictDoNothing, recordJoinFlow, h,
    findByUserId_seq, hf]

theorem find_of_any (st : LedgerState) (u : String)
    (h : st.rows.any (fun r => r.user_id == u) = true) :
    ∃ r, findByUserId st u = some r ∧ r.user_id = u := by
  obtain ⟨x, hx, hpx⟩ := List.any_eq_true.mp h
  have : (st.rows.find? (fun r => r.user_id == u)).isSome := by
    rw [List.find?_isSome]
    exact ⟨x, hx, hpx⟩
  obtain ⟨r, hr⟩ := Option.isSome_iff_exists.mp this
  refine ⟨r, hr, ?_⟩
  have := List.find?_some hr
  exact eq_of_beq this

end Createrington
namespace Createrington

theorem countP_user_eq_one (rows : List JoinRow) (u : String)
    (hnd : (rows.map (·.user_id)).Nodup)
    (hmem : ∃ r ∈ rows, r.user_id = u) :
    rows.countP (fun r => r.user_id == u) = 1 := by
  induction rows with
  | nil => obtain ⟨r, hr, _⟩ := hmem; exact absurd hr (List.not_mem_nil r)
  | cons h t ih =>
      simp only [List.map_cons, List.nodup_cons] at hnd
      obtain ⟨hnotin, hndt⟩ := hnd
      by_cases hu : h.user_id = u
      · have ht0 : t.countP (fun r => r.user_id == u) = 0 := by
          rw [List.countP_eq_zero]
          intro r hr
          simp only [beq_iff_eq]
          intro hru
          exact hnotin (by rw [hu, ← hru]; exact List.mem_map_of_mem _ hr)
        simp [List.countP_cons, hu, ht0]
      · obtain ⟨r, hr, hru⟩ := hmem
        rcases List.mem_cons.mp hr with hr | hr
        · exact absurd (hr ▸ hru) hu
        · have := ih hndt ⟨r, hr, hru⟩
          simp [List.countP_cons, hu, this]

theorem find_append_fresh (st : LedgerState) (u n₁ : String)
    (hany : st.rows.any (fun r => r.user_id == u) = false) :
    findByUserId ⟨st.seq + 1, st.rows ++ [⟨st.seq + 1, u, n₁⟩]⟩ u =
      some ⟨st.seq + 1, u, n₁⟩ := by
  have hnone : st.rows.find? (fun r => r.user_id == u) = none :=
    List.find?_eq_none.mpr (List.any_eq_false.mp hany)
  simp [findByUserId, List.find?_append, hnone]

/-- C1: `recordJoin` is idempotent per participant: a second call for the
same `participantId` (with any display name) returns the `joinNumber` of the
first call, stores no new row, and exactly one row for that participant
exists afterward. -/
theorem recordJoin_idempotent (st : LedgerState) (u n₁ n₂ : String) (k : Nat)
    (st₁ st₂ : LedgerState) (r₂ : Except RecordJoinError Nat)
    (hwf : (st.rows.map (·.user_id)).Nodup)
    (h₁ : recordJoin st u n₁ = (st₁, .ok k))
    (h₂ : recordJoin st₁ u n₂ = (st₂, r₂)) :
    r₂ = .ok k ∧ st₂.rows = st₁.rows ∧
      st₂.rows.countP (fun r => r.user_id == u) = 1 := by
  cases hany : st.rows.any (fun r => r.user_id == u) with
  | false =>
      rw [recordJoin_not_mem st u n₁ hany] at h₁
      injection h₁ with hA hk
      injection hk with hk'
      have hany₁ : (st.rows ++ [(⟨st.seq + 1, u, n₁⟩ : JoinRow)]).any
          (fun r => r.user_id == u) = true := by
        simp [List.any_append]
      rw [← hA] at h₂
      rw [recordJoin_mem_found _ u n₂ ⟨st.seq + 1, u, n₁⟩ hany₁
        (find_append_fresh st u n₁ hany)] at h₂
      injection h₂ with h2a h2b
      have hcount0 : st.rows.countP (fun r => r.user_id == u) = 0 :=
        List.countP_eq_zero.mpr (List.any_eq_false.mp hany)
      refine ⟨?_, ?_, ?_⟩
      · rw [← h2b, ← hk']
      · rw [← h2a, ← hA]
      · rw [← h2a]
        simp [List.countP_append, List.countP_cons, hcount0]
  | true =>
      obtain ⟨r, hfind, hru⟩ := find_of_any st u hany
      rw [recordJoin_mem_found st u n₁ r hany hfind] at h₁
      injection h₁ with hA hk
      injection hk with hk'
      have hany₁ : st₁.rows.any (fun r => r.user_id == u) = true := by
        rw [← hA]; exact hany
      have hfind₁ : findByUserId st₁ u = some r := by
        rw [← hA]; exact hfind
      rw [recordJoin_mem_found st₁ u n₂ r hany₁ hfind₁] at h₂
      injection h₂ with h2a h2b
      have hmem : r ∈ st.rows := List.mem_of_find?_eq_some hfind
      refine ⟨?_, ?_, ?_⟩
      · rw [← h2b, ← hk']
      · rw [← h2a, ← hA]
      · rw [← h2a, ← hA]
        exact countP_user_eq_one st.rows u hwf ⟨r, hmem, hru⟩

end Createrington
namespace Createrington

/-- The spec's density property: the committed `join_number`s, in insertion
order, are exactly `1, 2, ..., rowcount` (dense, gap-free, starting at 1). -/
def denseFromOne (st : LedgerState) : Prop :=
  st.rows.map (·.join_number) = List.range' 1 st.rows.length

instance (st : LedgerState) : Decidable (denseFromOne st) := by
  unfold denseFromOne; exact inferInstance

/-- C10: `getJoinNumber` agrees with `recordJoin`: after a successful
`recordJoin` returning `k` for participant `u`, `getJoinNumber u` returns
`some k`; for a participant with no row it returns `none`; and it is a pure
point lookup leaving the ledger state unchanged. -/
theorem getJoinNumber_agrees :
    (∀ st u n k st', recordJoin st u n = (st', .ok k) →
      getJoinNumber st' u = some k) ∧
    (∀ st u, (∀ r ∈ st.rows, r.user_id ≠ u) → getJoinNumber st u = none) ∧
    (∀ st u, getJoinNumberSt st u = (st, getJoinNumber st u)) := by
  refine ⟨?_, ?_, fun st u => rfl⟩
  · intro st u n k st' h
    cases hany : st.rows.any (fun r => r.user_id == u) with
    | false =>
        rw [recordJoin_not_mem st u n hany] at h
        injection h with hA hk
        injection hk with hk'
        rw [← hA, ← hk']
        simp [getJoinNumber, find_append_fresh st u n hany]
    | true =>
        obtain ⟨r, hfind, hru⟩ := find_of_any st u hany
        rw [recordJoin_mem_found st u n r hany hfind] at h
        injection h with hA hk
        injection hk with hk'
        rw [← hA, ← hk']
        simp [getJoinNumber, findByUserId_seq, hfind]
  · intro st u hnone
    have : st.rows.find? (fun r => r.user_id == u) = none := by
      rw [List.find?_eq_none]
      intro r hr
      simp only [beq_iff_eq]
      exact hnone r hr
    simp [getJoinNumber, findByUserId, this]

theorem getJoinNumber_agrees_witness :
    getJoinNumber ⟨1, [⟨1, "u1", "Alice"⟩]⟩ "u1" = some 1 ∧
    getJoinNumber emptyLedger "u9" = none :=
  ⟨getJoinNumber_agrees.1 emptyLedger "u1" "Alice" 1 ⟨1, [⟨1, "u1", "Alice"⟩]⟩ rfl,
   getJoinNumber_agrees.2.1 emptyLedger "u9" (by intro r hr; exact absurd hr (List.not_mem_nil r))⟩

/-- C5: `recordJoin`'s error behaviour: it executes exactly one insert and at
most one lookup (no retry); when the insert is suppressed and the lookup
finds nothing it surfaces the ledger-inconsistency error (no ordinal is
synthesized); a storage failure of the insert or of the lookup is propagated
to the caller. -/
theorem recordJoin_error_propagation (ins lkp : DbOutcome (Option Nat)) :
    (recordJoinFlow ins lkp).2.1 = 1 ∧
    (recordJoinFlow ins lkp).2.2 ≤ 1 ∧
    (ins = .ok none → lkp = .ok none →
      (recordJoinFlow ins lkp).1 = .error .ledgerInconsistency) ∧
    (∀ e, ins = .fail e → (recordJoinFlow ins lkp).1 = .error (.storage e)) ∧
    (∀ e, ins = .ok none → lkp = .fail e →
      (recordJoinFlow ins lkp).1 = .error (.storage e)) := by
  rcases ins with a | e
  · rcases a with _ | n
    · rcases lkp with b | e'
      · rcases b with _ | j <;> refine ⟨rfl, by simp [recordJoinFlow], ?_, ?_, ?_⟩ <;> simp [recordJoinFlow]
      · refine ⟨rfl, by simp [recordJoinFlow], ?_, ?_, ?_⟩ <;> simp [recordJoinFlow]
    · refine ⟨rfl, by simp [recordJoinFlow], ?_, ?_, ?_⟩ <;> simp [recordJoinFlow]
  · refine ⟨rfl, by simp [recordJoinFlow], ?_, ?_, ?_⟩ <;> simp [recordJoinFlow]

theorem recordJoin_error_propagation_witness :
    (recordJoinFlow (.ok none) (.ok none)).1 = .error .ledgerInconsistency ∧
    (recordJoinFlow (.fail "connection reset") (.ok none)).1 =
      .error (.storage "connection reset") :=
  ⟨(recordJoin_error_propagation (.ok none) (.ok none)).2.2.1 rfl rfl,
   (recordJoin_error_propagation (.fail "connection reset") (.ok none)).2.2.2.1
     "connection reset" rfl⟩

end Createrington
namespace Createrington

theorem recordJoin_idempotent_witness :
    (recordJoin ⟨1, [⟨1, "u1", "Alice"⟩]⟩ "u1" "Al").2 = .ok 1 ∧
    (recordJoin ⟨1, [⟨1, "u1", "Alice"⟩]⟩ "u1" "Al").1.rows = [⟨1, "u1", "Alice"⟩] ∧
    (recordJoin ⟨1, [⟨1, "u1", "Alice"⟩]⟩ "u1" "Al").1.rows.countP
      (fun r => r.user_id == "u1") = 1 :=
  recordJoin_idempotent emptyLedger "u1" "Alice" "Al" 1 ⟨1, [⟨1, "u1", "Alice"⟩]⟩
    (recordJoin ⟨1, [⟨1, "u1", "Alice"⟩]⟩ "u1" "Al").1
    (recordJoin ⟨1, [⟨1, "u1", "Alice"⟩]⟩ "u1" "Al").2
    (by simp [emptyLedger]) rfl rfl

theorem runJoins_fresh_aux (ps : List (String × String)) :
    ∀ st : LedgerState, (ps.map Prod.fst).Nodup →
    (∀ p ∈ ps, ∀ r ∈ st.rows, r.user_id ≠ p.1) →
    st.rows.map (·.join_number) = List.range' 1 st.rows.length →
    st.seq = st.rows.length →
    (runJoins st ps).1.rows.map (·.join_number) =
      List.range' 1 (st.rows.length + ps.length) ∧
    (runJoins st ps).2 = (List.range' (st.rows.length + 1) ps.length).map Except.ok := by
  induction ps with
  | nil => intro st _ _ hrows _; simp [runJoins, hrows]
  | cons p rest ih =>
      intro st hnd hfresh hrows hseq
      obtain ⟨u, n⟩ := p
      have hany : st.rows.any (fun r => r.user_id == u) = false := by
        rw [List.any_eq_false]
        intro r hr
        simp only [beq_iff_eq]
        exact hfresh (u, n) (List.mem_cons_self _ _) r hr
      have hrec := recordJoin_not_mem st u n hany
      simp only [List.map_cons, List.nodup_cons] at hnd
      obtain ⟨hnotin, hndr⟩ := hnd
      set row : JoinRow := ⟨st.seq + 1, u, n⟩ with hrow
      set st' : LedgerState := ⟨st.seq + 1, st.rows ++ [row]⟩ with hst'
      have hfresh' : ∀ q ∈ rest, ∀ r ∈ st'.rows, r.user_id ≠ q.1 := by
        intro q hq r hr
        rcases List.mem_append.mp hr with hr | hr
        · exact hfresh q (List.mem_cons_of_mem _ hq) r hr
        · have hrw : r = row := by simpa using hr
          subst hrw
          intro hcon
          have hq1 : q.1 ∈ List.map Prod.fst rest := List.mem_map_of_mem _ hq
          rw [← hcon] at hq1
          exact hnotin hq1
      have hrows' : st'.rows.map (·.join_number) = List.range' 1 st'.rows.length := by
        simp only [hst', List.map_append, hrows, List.length_append]
        simp [hrow, hseq, List.range'_concat, Nat.add_comm]
      have hseq' : st'.seq = st'.rows.length := by
        simp [hst', hseq]
      have hlen' : st'.rows.length = st.rows.length + 1 := by simp [hst']
      obtain ⟨ihrows, ihres⟩ := ih st' hndr hfresh' hrows' hseq'
      constructor
      · show (runJoins st ((u, n) :: rest)).1.rows.map (·.join_number) = _
        simp only [runJoins, hrec]
        rw [ihrows, hlen']
        simp only [List.length_cons]
        congr 1
        omega
      · show (runJoins st ((u, n) :: rest)).2 = _
        simp only [runJoins, hrec]
        rw [ihres, hlen', hseq]
        simp only [List.length_cons, List.range'_succ, List.map_cons]

theorem applyOps_nodup_aux (ops : List DbOp) : ∀ st : LedgerState,
    (st.rows.map (·.join_number)).Nodup → (∀ r ∈ st.rows, r.join_number ≤ st.seq) →
    ((applyOps st ops).rows.map (·.join_number)).Nodup ∧
    (∀ r ∈ (applyOps st ops).rows, r.join_number ≤ (applyOps st ops).seq) := by
  induction ops with
  | nil => intro st h1 h2; exact ⟨h1, h2⟩
  | cons op rest ih =>
      intro st h1 h2
      have hstep : applyOps st (op :: rest) = applyOps (applyOp st op) rest := by
        simp [applyOps]
      rw [hstep]
      cases op with
      | select u => exact ih st h1 h2
      | insert u n =>
          cases hany : st.rows.any (fun r => r.user_id == u) with
          | true =>
              have : applyOp st (.insert u n) = { st with seq := st.seq + 1 } := by
                simp [applyOp, insertOnConflictDoNothing, hany]
              rw [this]
              exact ih _ h1 (fun r hr => Nat.le_succ_of_le (h2 r hr))
          | false =>
              have : applyOp st (.insert u n) =
                  ⟨st.seq + 1, st.rows ++ [⟨st.seq + 1, u, n⟩]⟩ := by
                simp [applyOp, insertOnConflictDoNothing, hany]
              rw [this]
              refine ih _ ?_ ?_
              · simp only [List.map_append]
                rw [List.nodup_append]
                refine ⟨h1, by simp, ?_⟩
                intro a ha hb
                simp only [List.mem_map] at ha
                obtain ⟨r, hr, hra⟩ := ha
                have hb' : a = st.seq + 1 := by simpa using hb
                have := h2 r hr
                omega
              · intro r hr
                rcases List.mem_append.mp hr with hr | hr
                · exact Nat.le_succ_of_le (h2 r hr)
                · have : r = ⟨st.seq + 1, u, n⟩ := by simpa using hr
                  subst this
                  simp

/-- C3 counterexample: a single-writer sequential run in which a duplicate
join occurs before a later first-time join — `recordJoin("u1")`,
`recordJoin("u1")`, `recordJoin("u2")` — leaves committed `join_number`s
`[1, 3]`: the suppressed duplicate insert still consumed the `SERIAL`
sequence value `2`, so the committed ordinals are not a dense, gap-free
sequence starting at 1. -/
theorem joinNumbers_gap_counterexample :
    (runJoins emptyLedger [("u1", "A"), ("u1", "A"), ("u2", "B")]).2 =
      [.ok 1, .ok 1, .ok 3] ∧
    (runJoins emptyLedger [("u1", "A"), ("u1", "A"), ("u2", "B")]).1.rows.map
      (·.join_number) = [1, 3] ∧
    ¬ denseFromOne (runJoins emptyLedger [("u1", "A"), ("u1", "A"), ("u2", "B")]).1 :=
  ⟨rfl, rfl, by decide⟩

/-- C3 amended: the scenario `u1 → 1`, `u2 → 2`, `u1 (rejoin) → 1` holds; a
single-writer sequential run of first-time joins only (pairwise-distinct
participants against an empty ledger) yields the dense, gap-free ordinal
sequence `1..n` with call `i` returning `i`; and under any serialised
interleaving of insert/lookup statements (hence under concurrent writers) no
committed ordinal is ever duplicated.  (Gaps, however, can appear as soon as
a duplicate join precedes a later first-time join, because the suppressed
insert consumes a sequence value.) -/
theorem joinNumbers_sequence_amended :
    (runJoins emptyLedger [("u1", "Alice"), ("u2", "Bob"), ("u1", "Alice")]).2 =
      [.ok 1, .ok 2, .ok 1] ∧
    (∀ ps : List (String × String), (ps.map Prod.fst).Nodup →
      denseFromOne (runJoins emptyLedger ps).1 ∧
      (runJoins emptyLedger ps).2 = (List.range' 1 ps.length).map Except.ok) ∧
    (∀ st ops, (st.rows.map (·.join_number)).Nodup →
      (∀ r ∈ st.rows, r.join_number ≤ st.seq) →
      ((applyOps st ops).rows.map (·.join_number)).Nodup) := by
  refine ⟨rfl, ?_, ?_⟩
  · intro ps hnd
    have := runJoins_fresh_aux ps emptyLedger hnd
      (by intro p _ r hr; exact absurd hr (List.not_mem_nil r)) rfl rfl
    obtain ⟨hrows, hres⟩ := this
    simp only [emptyLedger] at hrows hres
    constructor
    · unfold denseFromOne
      have hlen : (runJoins emptyLedger ps).1.rows.length = ps.length := by
        have := congrArg List.length hrows
        simpa [emptyLedger] using this
      rw [hlen]
      simpa [emptyLedger] using hrows
    · simpa [emptyLedger] using hres
  · intro st ops h1 h2
    exact (applyOps_nodup_aux ops st h1 h2).1

theorem joinNumbers_sequence_amended_witness :
    denseFromOne (runJoins emptyLedger [("u1", "Alice"), ("u2", "Bob")]).1 ∧
    (runJoins emptyLedger [("u1", "Alice"), ("u2", "Bob")]).2 =
      (List.range' 1 2).map Except.ok ∧
    ((applyOps ⟨2, [⟨1, "u1", "A"⟩, ⟨2, "u2", "B"⟩]⟩
      [.insert "u1" "A", .insert "u3" "C"]).rows.map (·.join_number)).Nodup :=
  ⟨(joinNumbers_sequence_amended.2.1 [("u1", "Alice"), ("u2", "Bob")] (by decide)).1,
   (joinNumbers_sequence_amended.2.1 [("u1", "Alice"), ("u2", "Bob")] (by decide)).2,
   joinNumbers_sequence_amended.2.2 ⟨2, [⟨1, "u1", "A"⟩, ⟨2, "u2", "B"⟩]⟩
     [.insert "u1" "A", .insert "u3" "C"] (by decide) (by decide)⟩

end Createrington
namespace Createrington

/-- Every listener of the client is loader-wrapped: its callback is
`wrapExecute` of its own event name and once-flag around some `execute`. -/
def Wrapped (c : List Listener) : Prop :=
  ∀ l ∈ c, ∃ ex, l.action = wrapExecute l.eventName l.once ex

theorem wrapExecute_threw (nm : String) (o : Bool) (ex : Nat → ExecOutcome)
    (arg : Nat) : (wrapExecute nm o ex arg).threw = none := by
  unfold wrapExecute
  cases ex arg <;> rfl

theorem emitOne_wrapped (c : List Listener) (hw : Wrapped c) (ev : String)
    (arg : Nat) :
    (emitOne c ev arg).escaped = none ∧
    (emitOne c ev arg).client = c.filter (fun l => !(l.eventName == ev && l.once)) ∧
    (emitOne c ev arg).invoked = (c.filter (fun l => l.eventName == ev)).map (·.lid) := by
  induction c with
  | nil => exact ⟨rfl, rfl, rfl⟩
  | cons l rest ih =>
      obtain ⟨ex, hex⟩ := hw l (List.mem_cons_self _ _)
      have hwrest : Wrapped rest := fun x hx => hw x (List.mem_cons_of_mem _ hx)
      obtain ⟨ih1, ih2, ih3⟩ := ih hwrest
      cases hev : l.eventName == ev with
      | false =>
          simp only [emitOne, hev, Bool.false_eq_true, if_false, List.filter_cons,
            Bool.and_eq_true, Bool.not_eq_true']
          simp [hev, ih1, ih2, ih3]
      | true =>
          simp only [emitOne, hev, if_true, hex, wrapExecute_threw]
          cases ho : l.once with
          | false =>
              simp only [List.filter_cons, hev, ho]
              simp [ih1, ih2, ih3]
          | true =>
              simp only [List.filter_cons, hev, ho]
              simp [ih1, ih2, ih3]

theorem wrapped_filter (c : List Listener) (hw : Wrapped c) (p : Listener → Bool) :
    Wrapped (c.filter p) :=
  fun l hl => hw l (List.mem_of_mem_filter hl)

theorem emitSeq_wrapped (notifs : List (String × Nat)) :
    ∀ c : List Listener, Wrapped c →
    (emitSeq c notifs).escaped = none ∧ Wrapped (emitSeq c notifs).client := by
  induction notifs with
  | nil => intro c hw; exact ⟨rfl, hw⟩
  | cons nf rest ih =>
      intro c hw
      obtain ⟨h1, h2, h3⟩ := emitOne_wrapped c hw nf.1 nf.2
      have hw' : Wrapped (emitOne c nf.1 nf.2).client := by
        rw [h2]; exact wrapped_filter c hw _
      obtain ⟨ihr1, ihr2⟩ := ih _ hw'
      constructor
      · show (emitSeq c (nf :: rest)).escaped = none
        obtain ⟨ev, arg⟩ := nf
        simp only [emitSeq, h1, ihr1]
      · show Wrapped (emitSeq c (nf :: rest)).client
        obtain ⟨ev, arg⟩ := nf
        simp only [emitSeq, h1]
        exact ihr2

theorem emitOne_err_logged (c : List Listener) (hw : Wrapped c) (ev : String)
    (arg : Nat) (l : Listener) (hl : l ∈ c) (hev : l.eventName = ev)
    (ex : Nat → ExecOutcome) (hex : l.action = wrapExecute l.eventName l.once ex)
    (e : String) (he : ex arg = .err e) :
    (⟨.error, "Error in " ++ l.eventName ++
      (if l.once then " (once) event: " else " event: ") ++ e⟩ : LogEntry) ∈
      (emitOne c ev arg).logs := by
  induction c with
  | nil => exact absurd hl (List.not_mem_nil l)
  | cons h rest ih =>
      obtain ⟨exh, hexh⟩ := hw h (List.mem_cons_self _ _)
      have hwrest : Wrapped rest := fun x hx => hw x (List.mem_cons_of_mem _ hx)
      rcases List.mem_cons.mp hl with hcase | hcase
      · subst hcase
        have hevb : (l.eventName == ev) = true := by simp [hev]
        simp only [emitOne, hevb, if_true, hexh, wrapExecute_threw]
        -- the head is l itself; its own log is in the head part
        have : l.action arg = wrapExecute l.eventName l.once ex arg := by rw [hex]
        rw [hexh] at this
        rw [this]
        simp [wrapExecute, he]
      · cases hevh : h.eventName == ev with
        | false =>
            simp only [emitOne, hevh, Bool.false_eq_true, if_false]
            exact ih hwrest hcase
        | true =>
            simp only [emitOne, hevh, if_true, hexh, wrapExecute_threw]
            exact List.mem_append_right _ (ih hwrest hcase)

end Createrington
namespace Createrington

/-- C2: failure isolation at the dispatch boundary: with loader-wrapped
handlers, delivering a notification never lets an error escape to the
upstream client, invokes every registered handler matching the event kind
(in registration order) regardless of other handlers' failures, evolves the
listener list independently of handler outcomes, logs each handler failure
at error level with the event kind and the once-flag in the message, and no
sequence of notifications can abort the dispatcher. -/
theorem dispatch_failure_isolation (c : List Listener) (hw : Wrapped c)
    (ev : String) (arg : Nat) :
    (emitOne c ev arg).escaped = none ∧
    (emitOne c ev arg).invoked =
      (c.filter (fun l => l.eventName == ev)).map (·.lid) ∧
    (emitOne c ev arg).client =
      c.filter (fun l => !(l.eventName == ev && l.once)) ∧
    (∀ l ∈ c, l.eventName = ev →
      ∀ ex, l.action = wrapExecute l.eventName l.once ex →
      ∀ e, ex arg = .err e →
      (⟨.error, "Error in " ++ l.eventName ++
        (if l.once then " (once) event: " else " event: ") ++ e⟩ : LogEntry) ∈
        (emitOne c ev arg).logs) ∧
    (∀ notifs, (emitSeq c notifs).escaped = none) := by
  obtain ⟨h1, h2, h3⟩ := emitOne_wrapped c hw ev arg
  exact ⟨h1, h3, h2,
    fun l hl hev ex hex e he => emitOne_err_logged c hw ev arg l hl hev ex hex e he,
    fun notifs => (emitSeq_wrapped notifs c hw).1⟩

theorem dispatch_failure_isolation_witness :
    (emitOne
      [⟨"a.ts", "guildMemberAdd", false,
          wrapExecute "guildMemberAdd" false (fun _ => .err "boom")⟩,
        ⟨"b.ts", "guildMemberAdd", false,
          wrapExecute "guildMemberAdd" false (fun _ => .ok)⟩]
      "guildMemberAdd" 0).escaped = none ∧
    (emitOne
      [⟨"a.ts", "guildMemberAdd", false,
          wrapExecute "guildMemberAdd" false (fun _ => .err "boom")⟩,
        ⟨"b.ts", "guildMemberAdd", false,
          wrapExecute "guildMemberAdd" false (fun _ => .ok)⟩]
      "guildMemberAdd" 0).invoked = ["a.ts", "b.ts"] ∧
    (⟨.error, "Error in " ++ "guildMemberAdd" ++
      (if false then " (once) event: " else " event: ") ++ "boom"⟩ : LogEntry) ∈
      (emitOne
        [⟨"a.ts", "guildMemberAdd", false,
            wrapExecute "guildMemberAdd" false (fun _ => .err "boom")⟩,
          ⟨"b.ts", "guildMemberAdd", false,
            wrapExecute "guildMemberAdd" false (fun _ => .ok)⟩]
        "guildMemberAdd" 0).logs := by
  have hw : Wrapped
      [⟨"a.ts", "guildMemberAdd", false,
          wrapExecute "guildMemberAdd" false (fun _ => .err "boom")⟩,
        ⟨"b.ts", "guildMemberAdd", false,
          wrapExecute "guildMemberAdd" false (fun _ => .ok)⟩] := by
    intro l hl
    rcases List.mem_cons.mp hl with h | h
    · exact ⟨fun _ => .err "boom", by rw [h]⟩
    · rcases List.mem_cons.mp h with h' | h'
      · exact ⟨fun _ => .ok, by rw [h']⟩
      · exact absurd h' (List.not_mem_nil l)
  refine ⟨(dispatch_failure_isolation _ hw "guildMemberAdd" 0).1, ?_, ?_⟩
  · rw [(dispatch_failure_isolation _ hw "guildMemberAdd" 0).2.1]
    rfl
  · exact (dispatch_failure_isolation _ hw "guildMemberAdd" 0).2.2.2.1
      ⟨"a.ts", "guildMemberAdd", false,
        wrapExecute "guildMemberAdd" false (fun _ => .err "boom")⟩
      (List.mem_cons_self _ _) rfl (fun _ => .err "boom") rfl "boom" rfl

end Createrington
namespace Createrington

theorem count_lid_filter (l : Listener) (p : Listener → Bool) :
    ∀ c : List Listener, (c.map (·.lid)).Nodup → l ∈ c →
    ((c.filter p).map (·.lid)).count l.lid = if p l then 1 else 0 := by
  intro c
  induction c with
  | nil => intro _ hl; exact absurd hl (List.not_mem_nil l)
  | cons h rest ih =>
      intro hnd hl
      simp only [List.map_cons, List.nodup_cons] at hnd
      obtain ⟨hnotin, hndr⟩ := hnd
      have hsub : ((rest.filter p).map (·.lid)).Sublist (rest.map (·.lid)) :=
        List.Sublist.map _ (List.filter_sublist rest)
      rcases List.mem_cons.mp hl with hcase | hcase
      · subst hcase
        have hzero : ((rest.filter p).map (·.lid)).count l.lid = 0 := by
          rw [List.count_eq_zero]
          intro hmem
          exact hnotin (hsub.subset hmem)
        cases hp : p l with
        | true => simp [List.filter_cons, hp, List.count_cons, hzero]
        | false => simp [List.filter_cons, hp, hzero]
      · have hne : (h.lid == l.lid) = false := by
          rw [beq_eq_false_iff_ne]
          intro hcon
          exact hnotin (hcon ▸ List.mem_map_of_mem _ hcase)
        cases hp : p h with
        | true =>
            simp [List.filter_cons, hp, List.count_cons, hne, ih hndr hcase]
        | false =>
            simp [List.filter_cons, hp, ih hndr hcase]

theorem emitOne_client_sublist (ev : String) (arg : Nat) :
    ∀ c : List Listener, (emitOne c ev arg).client.Sublist c := by
  intro c
  induction c with
  | nil => simp [emitOne]
  | cons l rest ih =>
      cases hev : l.eventName == ev with
      | false =>
          simp only [emitOne, hev, Bool.false_eq_true, if_false]
          exact ih.cons₂ l
      | true =>
          simp only [emitOne, hev, if_true]
          cases hth : (l.action arg).threw with
          | some e =>
              cases l.once <;> simp
          | none =>
              cases l.once with
              | true => exact ih.cons l
              | false => exact ih.cons₂ l

theorem emitOne_invoked_sub (ev : String) (arg : Nat) :
    ∀ c : List Listener, ∀ x ∈ (emitOne c ev arg).invoked, x ∈ c.map (·.lid) := by
  intro c
  induction c with
  | nil => intro x hx; simp [emitOne] at hx
  | cons l rest ih =>
      intro x hx
      cases hev : l.eventName == ev with
      | false =>
          simp only [emitOne, hev, Bool.false_eq_true, if_false] at hx
          exact List.mem_cons_of_mem _ (ih x hx)
      | true =>
          simp only [emitOne, hev, if_true] at hx
          cases hth : (l.action arg).threw with
          | some e =>
              rw [hth] at hx
              simp only [List.mem_singleton] at hx
              subst hx
              exact List.mem_cons_self _ _
          | none =>
              rw [hth] at hx
              rcases List.mem_cons.mp hx with hx | hx
              · subst hx; exact List.mem_cons_self _ _
              · exact List.mem_cons_of_mem _ (ih x hx)

theorem emitSeq_trace_notin (notifs : List (String × Nat)) :
    ∀ c : List Listener, ∀ p : String, p ∉ c.map (·.lid) →
    p ∉ (emitSeq c notifs).trace := by
  induction notifs with
  | nil => intro c p _ h; simp [emitSeq] at h
  | cons nf rest ih =>
      intro c p hp h
      obtain ⟨ev, a⟩ := nf
      have hcl : p ∉ (emitOne c ev a).client.map (·.lid) := by
        intro hmem
        exact hp ((List.Sublist.map _ (emitOne_client_sublist ev a c)).subset hmem)
      cases hesc : (emitOne c ev a).escaped with
      | some e =>
          simp only [emitSeq, hesc] at h
          exact hp (emitOne_invoked_sub ev a c p h)
      | none =>
          simp only [emitSeq, hesc] at h
          rcases List.mem_append.mp h with h | h
          · exact hp (emitOne_invoked_sub ev a c p h)
          · exact ih _ p hcl h

end Createrington
namespace Createrington

theorem trace_count_recurring (l : Listener) (hon : l.once = false) :
    ∀ notifs : List (String × Nat), ∀ c : List Listener, Wrapped c →
    (c.map (·.lid)).Nodup → l ∈ c →
    (emitSeq c notifs).trace.count l.lid =
      notifs.countP (fun nf => nf.1 == l.eventName) := by
  intro notifs
  induction notifs with
  | nil => intro c _ _ _; simp [emitSeq]
  | cons nf rest ih =>
      intro c hw hnd hl
      obtain ⟨ev, a⟩ := nf
      obtain ⟨h1, h2, h3⟩ := emitOne_wrapped c hw ev a
      simp only [emitSeq, h1]
      rw [List.count_append]
      have hinv : (emitOne c ev a).invoked.count l.lid =
          if (l.eventName == ev) then 1 else 0 := by
        rw [h3]
        exact count_lid_filter l _ c hnd hl
      have hw' : Wrapped (emitOne c ev a).client := by
        rw [h2]; exact wrapped_filter c hw _
      have hnd' : ((emitOne c ev a).client.map (·.lid)).Nodup := by
        rw [h2]
        exact List.Nodup.sublist (List.Sublist.map _ (List.filter_sublist c)) hnd
      have hl' : l ∈ (emitOne c ev a).client := by
        rw [h2]
        exact List.mem_filter.mpr ⟨hl, by simp [hon]⟩
      rw [ih _ hw' hnd' hl', hinv, List.countP_cons]
      by_cases hev : l.eventName = ev
      · subst hev
        simp [Nat.add_comm]
      · have hb1 : (l.eventName == ev) = false := by simp [hev]
        have hb2 : (ev == l.eventName) = false := by
          simp only [beq_eq_false_iff_ne, ne_eq]
          exact fun h => hev h.symm
        simp [hb1, hb2]

theorem trace_count_once (l : Listener) (hon : l.once = true) :
    ∀ notifs : List (String × Nat), ∀ c : List Listener, Wrapped c →
    (c.map (·.lid)).Nodup → l ∈ c →
    (emitSeq c notifs).trace.count l.lid ≤ 1 := by
  intro notifs
  induction notifs with
  | nil => intro c _ _ _; simp [emitSeq]
  | cons nf rest ih =>
      intro c hw hnd hl
      obtain ⟨ev, a⟩ := nf
      obtain ⟨h1, h2, h3⟩ := emitOne_wrapped c hw ev a
      simp only [emitSeq, h1]
      rw [List.count_append]
      have hinv : (emitOne c ev a).invoked.count l.lid =
          if (l.eventName == ev) then 1 else 0 := by
        rw [h3]
        exact count_lid_filter l _ c hnd hl
      have hw' : Wrapped (emitOne c ev a).client := by
        rw [h2]; exact wrapped_filter c hw _
      have hnd' : ((emitOne c ev a).client.map (·.lid)).Nodup := by
        rw [h2]
        exact List.Nodup.sublist (List.Sublist.map _ (List.filter_sublist c)) hnd
      cases hevb : l.eventName == ev with
      | true =>
          have hcnt := count_lid_filter l (fun x => !(x.eventName == ev && x.once)) c hnd hl
          simp only [hevb, hon, Bool.and_self, Bool.not_true, Bool.false_eq_true,
            if_false] at hcnt
          have hnot : l.lid ∉ (emitOne c ev a).client.map (·.lid) := by
            rw [h2]
            exact List.count_eq_zero.mp hcnt
          have htail : (emitSeq (emitOne c ev a).client rest).trace.count l.lid = 0 :=
            List.count_eq_zero.mpr (emitSeq_trace_notin rest _ l.lid hnot)
          rw [hinv, htail, if_pos hevb]
      | false =>
          have hl' : l ∈ (emitOne c ev a).client := by
            rw [h2]
            exact List.mem_filter.mpr ⟨hl, by simp [hevb]⟩
          have := ih _ hw' hnd' hl'
          rw [hinv, if_neg (by simp [hevb])]
          omega

/-- C6: once-vs-recurring semantics: for loader-wrapped listeners with
pairwise-distinct registration identities, a `once` listener is invoked at
most once over any sequence of notifications, and a non-`once` listener is
invoked exactly once per notification matching its event kind. -/
theorem once_semantics (c : List Listener) (hw : Wrapped c)
    (hnd : (c.map (·.lid)).Nodup) (l : Listener) (hl : l ∈ c)
    (notifs : List (String × Nat)) :
    (l.once = true → (emitSeq c notifs).trace.count l.lid ≤ 1) ∧
    (l.once = false → (emitSeq c notifs).trace.count l.lid =
      notifs.countP (fun nf => nf.1 == l.eventName)) :=
  ⟨fun hon => trace_count_once l hon notifs c hw hnd hl,
   fun hon => trace_count_recurring l hon notifs c hw hnd hl⟩

theorem once_semantics_witness :
    ((emitSeq
      [⟨"o.ts", "e", true, wrapExecute "e" true (fun _ => .ok)⟩,
        ⟨"r.ts", "e", false, wrapExecute "e" false (fun _ => .ok)⟩]
      [("e", 0), ("e", 1)]).trace.count "o.ts" ≤ 1) ∧
    ((emitSeq
      [⟨"o.ts", "e", true, wrapExecute "e" true (fun _ => .ok)⟩,
        ⟨"r.ts", "e", false, wrapExecute "e" false (fun _ => .ok)⟩]
      [("e", 0), ("e", 1)]).trace.count "r.ts" =
      [("e", 0), ("e", 1)].countP (fun nf => nf.1 == "e")) := by
  have hw : Wrapped
      [⟨"o.ts", "e", true, wrapExecute "e" true (fun _ => .ok)⟩,
        ⟨"r.ts", "e", false, wrapExecute "e" false (fun _ => .ok)⟩] := by
    intro l hl
    rcases List.mem_cons.mp hl with h | h
    · exact ⟨fun _ => .ok, by rw [h]⟩
    · rcases List.mem_cons.mp h with h' | h'
      · exact ⟨fun _ => .ok, by rw [h']⟩
      · exact absurd h' (List.not_mem_nil l)
  have hnd : (([⟨"o.ts", "e", true, wrapExecute "e" true (fun _ => .ok)⟩,
      ⟨"r.ts", "e", false, wrapExecute "e" false (fun _ => .ok)⟩] :
        List Listener).map (·.lid)).Nodup := by
    simp
  exact ⟨(once_semantics _ hw hnd _ (List.mem_cons_self _ _) [("e", 0), ("e", 1)]).1 rfl,
    (once_semantics _ hw hnd _
      (List.mem_cons_of_mem _ (List.mem_cons_self _ _)) [("e", 0), ("e", 1)]).2 rfl⟩

end Createrington
namespace Createrington

/-- A discovered file that the environment gate skips: it loads, validates,
and carries a truthy `prodOnly` flag. -/
def prodOnlySkippedFile (f : String × ImportOutcome) : Prop :=
  ∃ art m, f.2 = .loaded art ∧ selectEvent art = some m ∧ prodOnlyOf m = true

theorem loadStep_logs_mono (isDev : Bool) (st : LoadState)
    (f : String × ImportOutcome) (e : LogEntry) (he : e ∈ st.logs) :
    e ∈ (loadStep isDev st f).logs := by
  obtain ⟨path, oc⟩ := f
  cases oc with
  | failure err => exact List.mem_append_left _ he
  | loaded art =>
      cases hsel : selectEvent art with
      | none =>
          simp only [loadStep, hsel]
          exact List.mem_append_left _ he
      | some m =>
          simp only [loadStep, hsel]
          cases hc : isDev && prodOnlyOf m with
          | true =>
              simp only [hc, if_true]
              exact List.mem_append_left _ he
          | false =>
              simp only [hc, Bool.false_eq_true, if_false]
              exact List.mem_append_left _ he

theorem loadFold_logs_mono (isDev : Bool) (files : List (String × ImportOutcome)) :
    ∀ st : LoadState, ∀ e ∈ st.logs, e ∈ (files.foldl (loadStep isDev) st).logs := by
  induction files with
  | nil => intro st e he; exact he
  | cons f rest ih =>
      intro st e he
      exact ih (loadStep isDev st f) e (loadStep_logs_mono isDev st f e he)

theorem loadFold_prodOnly_log (files : List (String × ImportOutcome)) (p : String)
    (art : LoadedArtifact) (m : RawModule)
    (hsel : selectEvent art = some m) (hpo : prodOnlyOf m = true) :
    ∀ st : LoadState, (p, ImportOutcome.loaded art) ∈ files →
    (⟨.warn, "Skipped loading production-only event: " ++ basename p⟩ : LogEntry) ∈
      (files.foldl (loadStep true) st).logs := by
  induction files with
  | nil => intro st hmem; exact absurd hmem (List.not_mem_nil _)
  | cons f rest ih =>
      intro st hmem
      rcases List.mem_cons.mp hmem with hf | hf
      · have hstep : (⟨.warn,
            "Skipped loading production-only event: " ++ basename p⟩ : LogEntry) ∈
            (loadStep true st f).logs := by
          rw [← hf]
          simp only [loadStep, hsel, hpo, Bool.and_self, if_true]
          exact List.mem_append_right _ (List.mem_singleton.mpr rfl)
        exact loadFold_logs_mono true rest (loadStep true st f) _ hstep
      · exact ih (loadStep true st f) hf

theorem loadFold_lid_skip (files : List (String × ImportOutcome)) (p : String)
    (hall : ∀ f ∈ files, f.1 = p → prodOnlySkippedFile f) :
    ∀ st : LoadState, p ∉ st.client.map (·.lid) →
    p ∉ ((files.foldl (loadStep true) st).client.map (·.lid)) := by
  induction files with
  | nil => intro st hp; exact hp
  | cons f rest ih =>
      intro st hp
      have hallr : ∀ g ∈ rest, g.1 = p → prodOnlySkippedFile g :=
        fun g hg => hall g (List.mem_cons_of_mem _ hg)
      refine ih hallr (loadStep true st f) ?_
      obtain ⟨path, oc⟩ := f
      cases oc with
      | failure err => exact hp
      | loaded art =>
          cases hsel : selectEvent art with
          | none =>
              simp only [loadStep, hsel]
              exact hp
          | some m =>
              cases hpo : prodOnlyOf m with
              | true =>
                  simp only [loadStep, hsel, hpo, Bool.and_self, if_true]
                  exact hp
              | false =>
                  simp only [loadStep, hsel, hpo, Bool.and_false, Bool.false_eq_true,
                    if_false]
                  simp only [List.map_append, List.map_cons, List.map_nil]
                  intro hmem
                  rcases List.mem_append.mp hmem with hmem | hmem
                  · exact hp hmem
                  · have hpath : path = p := (List.mem_singleton.mp hmem).symm
                    obtain ⟨art', m', hf2, hsel', hpo'⟩ :=
                      hall (path, .loaded art) (List.mem_cons_self _ _) hpath
                    have hart : art' = art := by
                      injection hf2 with h
                      exact h.symm
                    subst hart
                    rw [hsel] at hsel'
                    injection hsel' with hm
                    rw [hm] at hpo
                    rw [hpo'] at hpo
                    exact Bool.true_eq_false.mp hpo

/-- C7: in development mode a `prodOnly` descriptor is skipped at
registration time with a warn log naming the artifact, no listener for that
artifact is registered, and consequently its handler is never invoked on any
notification sequence. -/
theorem prodOnly_skipped_in_dev (files : List (String × ImportOutcome))
    (p : String) (art : LoadedArtifact) (m : RawModule)
    (hmem : (p, ImportOutcome.loaded art) ∈ files)
    (hsel : selectEvent art = some m) (hpo : prodOnlyOf m = true)
    (hall : ∀ f ∈ files, f.1 = p → prodOnlySkippedFile f) :
    ((⟨.warn, "Skipped loading production-only event: " ++ basename p⟩ : LogEntry) ∈
      (loadEventHandlers true files).logs) ∧
    p ∉ ((loadEventHandlers true files).client.map (·.lid)) ∧
    ∀ notifs, p ∉ (emitSeq (loadEventHandlers true files).client notifs).trace := by
  have habs : p ∉ ((loadEventHandlers true files).client.map (·.lid)) :=
    loadFold_lid_skip files p hall ⟨[], 0, []⟩ (by simp)
  exact ⟨loadFold_prodOnly_log files p art m hsel hpo ⟨[], 0, []⟩ hmem, habs,
    fun notifs => emitSeq_trace_notin notifs _ p habs⟩

theorem prodOnly_skipped_in_dev_witness :
    ((⟨.warn, "Skipped loading production-only event: " ++ basename "events/w.ts"⟩ :
        LogEntry) ∈
      (loadEventHandlers true
        [("events/w.ts", ImportOutcome.loaded
          ⟨none, ⟨some (.vstr "ready"), some false, some true,
            some (.vfun (fun _ => .ok))⟩⟩)]).logs) ∧
    "events/w.ts" ∉ ((loadEventHandlers true
        [("events/w.ts", ImportOutcome.loaded
          ⟨none, ⟨some (.vstr "ready"), some false, some true,
            some (.vfun (fun _ => .ok))⟩⟩)]).client.map (·.lid)) := by
  have h := prodOnly_skipped_in_dev
    [("events/w.ts", ImportOutcome.loaded
      ⟨none, ⟨some (.vstr "ready"), some false, some true,
        some (.vfun (fun _ => .ok))⟩⟩)]
    "events/w.ts"
    ⟨none, ⟨some (.vstr "ready"), some false, some true, some (.vfun (fun _ => .ok))⟩⟩
    ⟨some (.vstr "ready"), some false, some true, some (.vfun (fun _ => .ok))⟩
    (List.mem_cons_self _ _) rfl rfl
    (by
      intro f hf hp
      have : f = ("events/w.ts", ImportOutcome.loaded
          ⟨none, ⟨some (.vstr "ready"), some false, some true,
            some (.vfun (fun _ => .ok))⟩⟩) := List.mem_singleton.mp hf
      rw [this]
      exact ⟨_, _, rfl, rfl, rfl⟩)
  exact ⟨h.1, h.2.1⟩

end Createrington
namespace Createrington

/-- Discovered file whose dynamic import threw. -/
def isImportFailure (f : String × ImportOutcome) : Bool :=
  match f.2 with
  | .failure _ => true
  | .loaded _ => false

/-- Discovered file that loaded but was rejected for invalid shape. -/
def isShapeRejected (f : String × ImportOutcome) : Bool :=
  match f.2 with
  | .failure _ => false
  | .loaded a => (selectEvent a).isNone

/-- Discovered file skipped by the environment gate (`isDev && prodOnly`). -/
def isEnvSkipped (isDev : Bool) (f : String × ImportOutcome) : Bool :=
  match f.2 with
  | .failure _ => false
  | .loaded a =>
    match selectEvent a with
    | none => false
    | some m => isDev && prodOnlyOf m

/-- Discovered file that ends up registered. -/
def isRegistered (isDev : Bool) (f : String × ImportOutcome) : Bool :=
  match f.2 with
  | .failure _ => false
  | .loaded a =>
    match selectEvent a with
    | none => false
    | some m => !(isDev && prodOnlyOf m)

theorem loadFold_count (isDev : Bool) (files : List (String × ImportOutcome)) :
    ∀ st : LoadState, (files.foldl (loadStep isDev) st).count =
      st.count + files.countP (isRegistered isDev) := by
  induction files with
  | nil => intro st; simp
  | cons f rest ih =>
      intro st
      rw [List.foldl_cons, ih, List.countP_cons]
      obtain ⟨path, oc⟩ := f
      cases oc with
      | failure err => simp [loadStep, isRegistered]
      | loaded art =>
          cases hsel : selectEvent art with
          | none => simp [loadStep, hsel, isRegistered]
          | some m =>
              cases hc : isDev && prodOnlyOf m with
              | true =>
                  simp only [loadStep, hsel, hc, if_true]
                  simp [isRegistered, hsel, hc]
              | false =>
                  simp only [loadStep, hsel, hc, Bool.false_eq_true, if_false]
                  simp only [isRegistered, hsel, hc]
                  simp [Nat.add_comm, Nat.add_assoc, Nat.add_left_comm]

theorem file_category_partition (isDev : Bool) (f : String × ImportOutcome) :
    ((if isImportFailure f then 1 else 0) + (if isShapeRejected f then 1 else 0) +
      (if isEnvSkipped isDev f then 1 else 0) +
      (if isRegistered isDev f then 1 else 0) : Nat) = 1 := by
  obtain ⟨path, oc⟩ := f
  cases oc with
  | failure err => rfl
  | loaded art =>
      cases hsel : selectEvent art with
      | none =>
          simp [isImportFailure, isShapeRejected, isEnvSkipped, isRegistered, hsel]
      | some m =>
          cases hc : isDev && prodOnlyOf m with
          | true =>
              simp [isImportFailure, isShapeRejected, isEnvSkipped, isRegistered, hsel, hc]
          | false =>
              simp [isImportFailure, isShapeRejected, isEnvSkipped, isRegistered, hsel, hc]

theorem countP_partition (isDev : Bool) (files : List (String × ImportOutcome)) :
    files.countP isImportFailure + files.countP isShapeRejected +
      files.countP (isEnvSkipped isDev) + files.countP (isRegistered isDev) =
      files.length := by
  induction files with
  | nil => rfl
  | cons f rest ih =>
      have h := file_category_partition isDev f
      simp only [List.countP_cons, List.length_cons]
      omega

/-- C9 counterexample: a discovered artifact whose dynamic import throws is
neither shape-rejected nor environment-skipped, yet it is not registered:
the loaded count is 0 while "discovered minus shape-rejected minus
environment-skipped" is 1. -/
theorem loaded_count_counterexample :
    (loadEventHandlersTop true true
      [("broken.ts", ImportOutcome.failure "SyntaxError")]).count = 0 ∧
    [("broken.ts", ImportOutcome.failure "SyntaxError")].length -
      [("broken.ts", ImportOutcome.failure "SyntaxError")].countP isShapeRejected -
      [("broken.ts", ImportOutcome.failure "SyntaxError")].countP (isEnvSkipped true)
      = 1 := by
  constructor <;> rfl

/-- C9 amended: the count returned by the bulk-loading phase equals the
number of discovered artifacts minus the artifacts whose import failed,
minus the artifacts rejected for invalid shape, minus the artifacts skipped
by the environment gate — equivalently, the number of registered
artifacts. -/
theorem loaded_count_amended (isDev : Bool)
    (files : List (String × ImportOutcome)) :
    (loadEventHandlersTop isDev true files).count =
      files.length - files.countP isImportFailure -
        files.countP isShapeRejected - files.countP (isEnvSkipped isDev) ∧
    (loadEventHandlersTop isDev true files).count =
      files.countP (isRegistered isDev) := by
  have h1 : (loadEventHandlersTop isDev true files).count =
      files.countP (isRegistered isDev) := by
    simp only [loadEventHandlersTop, if_true, loadEventHandlers]
    rw [loadFold_count]
    simp
  have h2 := countP_partition isDev files
  exact ⟨by omega, h1⟩

end Createrington
namespace Createrington

/-- C8 counterexample: an artifact exporting `{eventName: "", execute: fn}`
is ACCEPTED by the validator — `isEventModule` only checks
`typeof eventName === "string"` and never checks non-emptiness — refuting
the claim that an empty event-kind identifier is rejected. -/
theorem module_validation_counterexample :
    isEventModule ⟨some (.vstr ""), none, none, some (.vfun (fun _ => .ok))⟩ = true ∧
    (selectEvent ⟨none,
      ⟨some (.vstr ""), none, none, some (.vfun (fun _ => .ok))⟩⟩).isSome = true :=
  ⟨rfl, rfl⟩

/-- C8 amended: a loaded module is accepted iff it exposes a string-typed
event-kind identifier (which MAY be empty) and a callable execute function;
an artifact is selected either via a valid `default` slot or directly; an
artifact with an event kind but no execute is rejected; and a shape
rejection is non-fatal — the loader logs a warn line and continues with
client and count unchanged. -/
theorem module_validation_amended :
    (∀ m : RawModule, isEventModule m = true ↔
      ((∃ s, m.eventName = some (.vstr s)) ∧ (∃ f, m.execute = some (.vfun f)))) ∧
    (∀ a : LoadedArtifact, (selectEvent a).isSome = true ↔
      ((∃ d, a.defaultSlot = some d ∧ isEventModule d = true) ∨
        isEventModule a.named = true)) ∧
    isEventModule ⟨some (.vstr "x"), none, none, none⟩ = false ∧
    (∀ isDev st (f : String × ImportOutcome) art,
      f.2 = ImportOutcome.loaded art → selectEvent art = none →
      (loadStep isDev st f).client = st.client ∧
      (loadStep isDev st f).count = st.count ∧
      (loadStep isDev st f).logs = st.logs ++
        [⟨.warn, "Skipped " ++ f.1 ++
          ": not a valid EventModule (missing eventName or execute)"⟩]) := by
  refine ⟨?_, ?_, rfl, ?_⟩
  · intro m
    obtain ⟨en, onc, po, ex⟩ := m
    cases en with
    | none => simp [isEventModule]
    | some v =>
        cases v with
        | vstr s =>
            cases ex with
            | none => simp [isEventModule]
            | some w =>
                cases w with
                | vstr s' => simp [isEventModule]
                | vfun f => simp [isEventModule]
                | vother => simp [isEventModule]
        | vfun f => simp [isEventModule]
        | vother => simp [isEventModule]
  · intro a
    obtain ⟨ds, named⟩ := a
    cases ds with
    | none =>
        cases hn : isEventModule named <;> simp [selectEvent, hn]
    | some d =>
        cases hd : isEventModule d with
        | true => simp [selectEvent, hd]
        | false =>
            cases hn : isEventModule named <;> simp [selectEvent, hd, hn]
  · intro isDev st f art hf hsel
    obtain ⟨path, oc⟩ := f
    cases oc with
    | failure err => exact absurd hf (by simp)
    | loaded art' =>
        have : art' = art := by injection hf
        subst this
        simp [loadStep, hsel]

theorem module_validation_amended_witness :
    ((∃ s, (some (JsVal.vstr "guildMemberAdd") : Option JsVal) = some (.vstr s)) ∧
      (∃ f, (some (JsVal.vfun (fun _ => ExecOutcome.ok)) : Option JsVal) =
        some (.vfun f))) ∧
    (loadStep true ⟨[], 0, []⟩
      ("bad.ts", ImportOutcome.loaded ⟨none, ⟨none, none, none, none⟩⟩)).count = 0 :=
  ⟨(module_validation_amended.1
      ⟨some (.vstr "guildMemberAdd"), none, none,
        some (.vfun (fun _ => ExecOutcome.ok))⟩).mp rfl,
   (module_validation_amended.2.2.2 true ⟨[], 0, []⟩
      ("bad.ts", ImportOutcome.loaded ⟨none, ⟨none, none, none, none⟩⟩)
      ⟨none, ⟨none, none, none, none⟩⟩ rfl rfl).2.1⟩

/-- C4 counterexample: for a member whose ledger-assigned ordinal is 1 but
whose guild has 5 members at notification time, the welcome handler performs
no `recordJoin` call at all (its effect list is exactly a channel fetch and
a card send) and the number it displays is the raw guild member count 5, not
the ledger ordinal 1. -/
theorem welcome_ledger_counterexample :
    welcomeHandler false true ⟨"u1", "Alice", 5⟩ =
      [.fetchChannel, .sendCard 5] ∧
    getJoinNumber (runJoins emptyLedger [("u1", "Alice")]).1 "u1" = some 1 ∧
    (5 : Nat) ≠ 1 :=
  ⟨rfl, rfl, by decide⟩

/-- C4 amended: the `guildMemberAdd` welcome handler never calls the join
ledger (neither `recordJoin` nor `getJoinNumber`); every number it displays
— on the welcome card and in the optional embed — is
`member.guild.memberCount` read at notification time. -/
theorem welcome_memberCount_amended (sendEmbed channelOk : Bool)
    (m : MemberInfo) :
    (∀ u, WelcomeEffect.ledgerRecordJoin u ∉ welcomeHandler sendEmbed channelOk m) ∧
    (∀ u, WelcomeEffect.ledgerGetJoinNumber u ∉ welcomeHandler sendEmbed channelOk m) ∧
    (∀ k, WelcomeEffect.sendCard k ∈ welcomeHandler sendEmbed channelOk m →
      k = m.guildMemberCount) ∧
    (∀ k, WelcomeEffect.sendEmbedMsg k ∈ welcomeHandler sendEmbed channelOk m →
      k = m.guildMemberCount) := by
  cases channelOk <;> cases sendEmbed <;>
    simp [welcomeHandler]

theorem welcome_memberCount_amended_witness :
    WelcomeEffect.ledgerRecordJoin "u1" ∉ welcomeHandler true true ⟨"u1", "Alice", 7⟩ ∧
    (7 : Nat) = (⟨"u1", "Alice", 7⟩ : MemberInfo).guildMemberCount :=
  ⟨(welcome_memberCount_amended true true ⟨"u1", "Alice", 7⟩).1 "u1",
   (welcome_memberCount_amended true true ⟨"u1", "Alice", 7⟩).2.2.1 7 (by decide)⟩

end Createrington
